import Mathlib

/-!
Verification of `langchain/callbacks/tracers/evaluation.py`
(`EvaluatorCallbackHandler`): a tracer that fans each persisted run out to a
set of run evaluators on a thread pool and tracks the in-flight futures.

We give a shallow embedding of the three methods that carry the logic:
`_evaluate_in_project`, `_persist_run` and `wait_for_futures`, together with
the worker-pool bound computed in `__init__`.

Modelling conventions:
* A `Run` record keeps the fields the handler touches: `id`, `outputs`
  (a Python-falsy-able mapping, modelled as `Option` of an association list)
  and `reference_example_id`.
* Python object identity for runs is modelled with an explicit heap
  (`List Run`, address = index): `run.copy()` allocates a new cell, attribute
  assignment updates one cell in place, and tasks hold the address of the run
  object they were given.
* `executor.submit` returns a fresh `Future`, modelled as a fresh natural
  number id; the status list records one `TaskStatus` per issued future.
* `concurrent.futures.wait` blocks until all futures in its argument list are
  done; its postcondition enters theorems as a hypothesis on a status oracle.
* Exceptions are `Except String`; the `KeyError` raised by `set.remove` on an
  absent element is `Except.error "KeyError"`.
-/

/-- Status of a submitted future. -/
inductive TaskStatus where
  | pending
  | running
  | completed
  | failed
deriving DecidableEq, Repr

/-- A future is terminal when it completed or failed. -/
def TaskStatus.isTerminal : TaskStatus → Bool
  | .completed => true
  | .failed => true
  | _ => false

/-- The fields of a `Run` that `EvaluatorCallbackHandler` reads or writes:
`run.id`, `run.outputs` and `run.reference_example_id`. -/
structure Run where
  id : String
  outputs : Option (List (String × String))
  reference_example_id : Option String
deriving DecidableEq, Repr

instance : Inhabited Run := ⟨⟨"", none, none⟩⟩

/-- Python truthiness of `run.outputs`: `None` and `{}` are falsy. -/
def pyTruthy : Option (List (String × String)) → Bool
  | none => false
  | some l => !l.isEmpty

/-- Construction-time configuration of `EvaluatorCallbackHandler.__init__`:
evaluators are identified by their class name (used in error messages). -/
structure Config where
  evaluators : List String
  max_workers : Option Int
  example_id : Option String
  skip_unfinished : Bool
  project_name : Option String
deriving DecidableEq, Repr

/-- Python `max_workers or len(evaluators)`: `None` and `0` are falsy and
fall through to the evaluator count. -/
def pyOrWorkers (mw : Option Int) (numEvaluators : Nat) : Int :=
  match mw with
  | none => (numEvaluators : Int)
  | some n => if n = 0 then (numEvaluators : Int) else n

/-- The executor bound from `__init__`:
`ThreadPoolExecutor(max_workers=max(max_workers or len(evaluators), 1))`. -/
def initWorkerBound (mw : Option Int) (numEvaluators : Nat) : Int :=
  max (pyOrWorkers mw numEvaluators) 1

/-- Worker-pool bound of a configured handler. -/
def Config.workerBound (cfg : Config) : Int :=
  initWorkerBound cfg.max_workers cfg.evaluators.length

/-- Observable events of one `_evaluate_in_project` invocation:
`call k` is the k-th `self.client.evaluate_run(run, evaluator)` call of this
invocation, `enterScope`/`exitScope` delimit the `tracing_v2_enabled`
context manager, and `logError` is a `logger.error` emission. -/
inductive TraceEv where
  | call (k : Nat)
  | enterScope (project_name : Option String) (tags : List String)
  | exitScope
  | logError (msg : String)
deriving DecidableEq, Repr

/-- The message of the `logger.error` call in `_evaluate_in_project`:
`f"Error evaluating run {run.id} with {evaluator.__class__.__name__}: {e}"`. -/
def errMsg (run : Run) (evalName : String) (e : String) : String :=
  "Error evaluating run " ++ run.id ++ " with " ++ evalName ++ ": " ++ e

/-- Shallow embedding of `EvaluatorCallbackHandler._evaluate_in_project`.

The body first calls `self.client.evaluate_run(run, evaluator)` under the
guard `if self.project_name is None`, then calls it again inside
`with tracing_v2_enabled(project_name=self.project_name, tags=["eval"])`.
`evaluate k` is the outcome of the k-th `evaluate_run` call of this
invocation. On any exception the handler logs `errMsg` and re-raises the
same exception; the context manager exits before the handler runs.
Returns the event trace and the overall outcome. -/
def evaluate_in_project (project_name : Option String) (run : Run)
    (evalName : String) (evaluate : Nat → Except String Unit) :
    List TraceEv × Except String Unit :=
  let body : List TraceEv × Except String Unit :=
    match project_name with
    | none =>
      match evaluate 0 with
      | .error e => ([.call 0], .error e)
      | .ok _ =>
        match evaluate 1 with
        | .error e =>
            ([.call 0, .enterScope none ["eval"], .call 1, .exitScope],
              .error e)
        | .ok _ =>
            ([.call 0, .enterScope none ["eval"], .call 1, .exitScope],
              .ok ())
    | some pn =>
      match evaluate 0 with
      | .error e =>
          ([.enterScope (some pn) ["eval"], .call 0, .exitScope], .error e)
      | .ok _ =>
          ([.enterScope (some pn) ["eval"], .call 0, .exitScope], .ok ())
  match body with
  | (tr, .ok _) => (tr, .ok ())
  | (tr, .error e) => (tr ++ [.logError (errMsg run evalName e)], .error e)

/-- Number of `evaluate_run` invocations recorded in a trace. -/
def numEvaluateCalls (tr : List TraceEv) : Nat :=
  (tr.filter fun ev => match ev with | .call _ => true | _ => false).length

/-- Python `set.remove`: erases the element if present, raises `KeyError`
when it is absent (unlike `set.discard`). -/
def pySetRemove (s : Finset Nat) (x : Nat) : Except String (Finset Nat) :=
  if x ∈ s then .ok (s.erase x) else .error "KeyError"

/-- The removal loop of `wait_for_futures`:
`for future in futures: self.futures.remove(future)`, run against the
registry contents at removal time. -/
def removeLoop : List Nat → Finset Nat → Except String (Finset Nat)
  | [], s => .ok s
  | f :: rest, s =>
    match pySetRemove s f with
    | .error e => .error e
    | .ok s2 => removeLoop rest s2

/-- Shallow embedding of `EvaluatorCallbackHandler.wait_for_futures`.

`futures = list(self.futures)` snapshots the registry at call time;
`wait(futures)` blocks until every future in the snapshot is done; the loop
then removes each snapshotted future from `self.futures`. Concurrent
activity during the blocking wait is made explicit: `addedDuringWait` are
futures other threads add to the registry and `removedDuringWait` are
futures other threads remove, so the registry seen by the removal loop is
`(futuresAtCall ∪ addedDuringWait) \ removedDuringWait`. Returns the
snapshot handed to `wait` and the outcome of the removal loop. -/
def wait_for_futures (futuresAtCall addedDuringWait removedDuringWait :
    Finset Nat) : List Nat × Except String (Finset Nat) :=
  let snapshot := futuresAtCall.sort (· ≤ ·)
  (snapshot,
    removeLoop snapshot ((futuresAtCall ∪ addedDuringWait) \ removedDuringWait))

/-- A dispatched evaluation task: the future returned by `executor.submit`,
the heap address of the run object passed to `_evaluate_in_project`, and the
evaluator it was paired with. -/
structure DispatchTask where
  future : Nat
  runAddr : Nat
  evaluatorName : String
deriving DecidableEq, Repr

/-- Handler state touched by `_persist_run`: the heap of run objects
(addresses are indices, `run.copy()` appends a cell), the `self.futures`
set, the status list of all issued futures (`future = status.length` is the
next fresh future id), the submitted tasks and the log. -/
structure HState where
  heap : List Run
  futures : Finset Nat
  status : List TaskStatus
  tasks : List DispatchTask
  logs : List String

/-- The loop `for evaluator in self.evaluators:
self.futures.add(self.executor.submit(self._evaluate_in_project, run_,
evaluator))`. Each `submit` issues a fresh future in `pending` state and
hands it the address of the (single) run copy. -/
def submitEvaluators (evaluators : List String) (copyAddr : Nat)
    (s : HState) : HState :=
  match evaluators with
  | [] => s
  | en :: rest =>
      submitEvaluators rest copyAddr
        { s with
          futures := insert s.status.length s.futures
          status := s.status ++ [TaskStatus.pending]
          tasks := s.tasks ++ [⟨s.status.length, copyAddr, en⟩] }

/-- The tasks created by one `_persist_run` call: one per evaluator, with
consecutive fresh future ids starting at `startFid`, all sharing the same
run-copy address. -/
def newTasks (evaluators : List String) (copyAddr startFid : Nat) :
    List DispatchTask :=
  match evaluators with
  | [] => []
  | en :: rest => ⟨startFid, copyAddr, en⟩ :: newTasks rest copyAddr (startFid + 1)

/-- Shallow embedding of `EvaluatorCallbackHandler._persist_run`.

If `self.skip_unfinished and not run.outputs`, logs the skip message and
returns with the state otherwise unchanged. Otherwise `run_ = run.copy()`
allocates a new heap cell holding the same record,
`run_.reference_example_id = self.example_id` updates that one cell, and the
loop submits one task per evaluator, all referencing the copy's address. -/
def persist_run (cfg : Config) (origAddr : Nat) (s : HState) : HState :=
  match s.heap[origAddr]? with
  | none => s
  | some run =>
    if cfg.skip_unfinished && !(pyTruthy run.outputs) then
      { s with logs := s.logs ++ ["Skipping unfinished run " ++ run.id] }
    else
      let copyAddr := s.heap.length
      let heap1 := s.heap ++ [run]
      let heap2 := heap1.set copyAddr
        { run with reference_example_id := cfg.example_id }
      submitEvaluators cfg.evaluators copyAddr { s with heap := heap2 }

/-! ### Helper lemmas -/

theorem set_append_length (l : List Run) (x y : Run) :
    (l ++ [x]).set l.length y = l ++ [y] := by
  induction l with
  | nil => rfl
  | cons a t ih => simp [List.set, ih]

theorem persist_run_skip (cfg : Config) (a : Nat) (s : HState) (run : Run)
    (hrun : s.heap[a]? = some run)
    (hskip : (cfg.skip_unfinished && !(pyTruthy run.outputs)) = true) :
    persist_run cfg a s =
      { s with logs := s.logs ++ ["Skipping unfinished run " ++ run.id] } := by
  unfold persist_run
  rw [hrun]
  simp [hskip]

theorem persist_run_eligible (cfg : Config) (a : Nat) (s : HState) (run : Run)
    (hrun : s.heap[a]? = some run)
    (helig : (cfg.skip_unfinished && !(pyTruthy run.outputs)) = false) :
    persist_run cfg a s =
      submitEvaluators cfg.evaluators s.heap.length
        { s with heap :=
            s.heap ++ [{ run with reference_example_id := cfg.example_id }] } := by
  unfold persist_run
  rw [hrun]
  simp [helig, set_append_length]

theorem submitEvaluators_heap (evs : List String) (a : Nat) (s : HState) :
    (submitEvaluators evs a s).heap = s.heap := by
  induction evs generalizing s with
  | nil => rfl
  | cons en rest ih => simp [submitEvaluators, ih]

theorem submitEvaluators_logs (evs : List String) (a : Nat) (s : HState) :
    (submitEvaluators evs a s).logs = s.logs := by
  induction evs generalizing s with
  | nil => rfl
  | cons en rest ih => simp [submitEvaluators, ih]

theorem submitEvaluators_status (evs : List String) (a : Nat) (s : HState) :
    (submitEvaluators evs a s).status =
      s.status ++ List.replicate evs.length TaskStatus.pending := by
  induction evs generalizing s with
  | nil => simp [submitEvaluators]
  | cons en rest ih =>
    simp [submitEvaluators, ih, List.replicate_succ]

theorem submitEvaluators_tasks (evs : List String) (a : Nat) (s : HState) :
    (submitEvaluators evs a s).tasks =
      s.tasks ++ newTasks evs a s.status.length := by
  induction evs generalizing s with
  | nil => simp [submitEvaluators, newTasks]
  | cons en rest ih =>
    simp [submitEvaluators, newTasks, ih]

theorem newTasks_length (evs : List String) (a k : Nat) :
    (newTasks evs a k).length = evs.length := by
  induction evs generalizing k with
  | nil => rfl
  | cons en rest ih => simp [newTasks, ih]

theorem newTasks_runAddr (evs : List String) (a k : Nat) :
    ∀ t ∈ newTasks evs a k, t.runAddr = a := by
  induction evs generalizing k with
  | nil => intro t ht; simp [newTasks] at ht
  | cons en rest ih =>
    intro t ht
    simp [newTasks] at ht
    rcases ht with h | h
    · simp [h]
    · exact ih (k + 1) t h

theorem newTasks_future_bounds (evs : List String) (a k : Nat) :
    ∀ t ∈ newTasks evs a k, k ≤ t.future ∧ t.future < k + evs.length := by
  induction evs generalizing k with
  | nil => intro t ht; simp [newTasks] at ht
  | cons en rest ih =>
    intro t ht
    simp [newTasks] at ht
    rcases ht with h | h
    · simp [h]
    · have := ih (k + 1) t h
      simp only [List.length_cons]
      omega

theorem submitEvaluators_futures (evs : List String) (a : Nat) (s : HState) :
    (submitEvaluators evs a s).futures =
      s.futures ∪ Finset.Ico s.status.length (s.status.length + evs.length) := by
  induction evs generalizing s with
  | nil => simp [submitEvaluators]
  | cons en rest ih =>
    simp only [submitEvaluators]
    rw [ih]
    ext f
    simp only [Finset.mem_union, Finset.mem_Ico, Finset.mem_insert,
      List.length_append, List.length_cons, List.length_nil]
    by_cases hf : f ∈ s.futures
    · simp [hf]
    · simp [hf]
      omega

theorem submitEvaluators_card (evs : List String) (a : Nat) (s : HState)
    (h : ∀ f ∈ s.futures, f < s.status.length) :
    (submitEvaluators evs a s).futures.card = s.futures.card + evs.length := by
  rw [submitEvaluators_futures, Finset.card_union_of_disjoint, Nat.card_Ico]
  · omega
  · rw [Finset.disjoint_left]
    intro f hf hIco
    have := h f hf
    have := (Finset.mem_Ico.mp hIco).1
    omega

theorem removeLoop_subset (l : List Nat) (s s2 : Finset Nat)
    (h : removeLoop l s = .ok s2) : s2 ⊆ s := by
  induction l generalizing s with
  | nil =>
    simp [removeLoop] at h
    simp [h]
  | cons f rest ih =>
    simp only [removeLoop, pySetRemove] at h
    by_cases hf : f ∈ s
    · simp [hf] at h
      exact (ih _ h).trans (Finset.erase_subset _ _)
    · simp [hf] at h

theorem removeLoop_not_mem (l : List Nat) (s s2 : Finset Nat)
    (h : removeLoop l s = .ok s2) : ∀ x ∈ l, x ∉ s2 := by
  induction l generalizing s with
  | nil => intro x hx; simp at hx
  | cons f rest ih =>
    intro x hx
    simp only [removeLoop, pySetRemove] at h
    by_cases hf : f ∈ s
    · simp [hf] at h
      rcases List.mem_cons.mp hx with rfl | hx'
      · intro hmem
        exact absurd (removeLoop_subset rest _ _ h hmem)
          (Finset.not_mem_erase x s)
      · exact ih _ h x hx'
    · simp [hf] at h

theorem removeLoop_ok_of_subset (l : List Nat) (s : Finset Nat)
    (hnd : l.Nodup) (hsub : ∀ x ∈ l, x ∈ s) :
    removeLoop l s = .ok (s \ l.toFinset) := by
  induction l generalizing s with
  | nil => simp [removeLoop]
  | cons f rest ih =>
    have hf : f ∈ s := hsub f (List.mem_cons_self f rest)
    simp only [removeLoop, pySetRemove, hf, if_pos]
    have hnd' := (List.nodup_cons.mp hnd).2
    have hfrest := (List.nodup_cons.mp hnd).1
    have hsub' : ∀ x ∈ rest, x ∈ s.erase f := by
      intro x hx
      exact Finset.mem_erase.mpr ⟨fun hxf => hfrest (hxf ▸ hx), hsub x (List.mem_cons_of_mem f hx)⟩
    rw [ih (s.erase f) hnd' hsub']
    congr 1
    ext y
    simp only [Finset.mem_sdiff, Finset.mem_erase, List.toFinset_cons,
      Finset.mem_insert, List.mem_toFinset]
    tauto

/-! ### Claim theorems -/

/-- C8: calling `wait_for_futures` when the futures registry is empty
returns immediately without raising any error and leaves the registry
empty: the snapshot handed to `wait` is `[]` and the removal loop succeeds
with the registry still empty. -/
theorem wait_empty_registry_noop : wait_for_futures ∅ ∅ ∅ = ([], .ok ∅) := by
  simp [wait_for_futures, Finset.sort_empty, removeLoop]

/-- C3 counterexample: the claim says the removal loop of
`wait_for_futures` never raises for any snapshot and any registry state at
removal time, but when the snapshotted future `0` has already been removed
from the registry by the time the loop runs, `set.remove` raises
`KeyError`. -/
theorem wait_remove_absent_raises :
    (wait_for_futures {0} ∅ {0}).2 = .error "KeyError" := by
  simp [wait_for_futures, Finset.sort_singleton, removeLoop, pySetRemove]

/-- C3 amended: the removal loop of `wait_for_futures` completes without
raising whenever every snapshotted task is still in the registry at removal
time (in particular in any sequential use, where nothing is removed
concurrently); removal of an already-absent entry raises `KeyError`, so the
operation is not safe against concurrent removals. -/
theorem wait_removal_ok_of_present (pre added removed : Finset Nat)
    (h : ∀ t ∈ pre, t ∉ removed) :
    (wait_for_futures pre added removed).2 =
      .ok (((pre ∪ added) \ removed) \ pre) := by
  have hnd := Finset.sort_nodup (· ≤ ·) pre
  have hsub : ∀ x ∈ pre.sort (· ≤ ·), x ∈ (pre ∪ added) \ removed := by
    intro x hx
    have hxp : x ∈ pre := (Finset.mem_sort _).mp hx
    exact Finset.mem_sdiff.mpr ⟨Finset.mem_union_left _ hxp, h x hxp⟩
  simp only [wait_for_futures]
  rw [removeLoop_ok_of_subset _ _ hnd hsub, Finset.sort_toFinset]

/-- Witness for C3 amended at a concrete state: snapshot `{0}`, future `5`
added during the wait, nothing removed concurrently; the call returns
normally with registry `{5}`. -/
theorem wait_removal_ok_of_present_witness :
    (wait_for_futures {0} {5} ∅).2 = .ok ({5} : Finset Nat) := by
  have h := wait_removal_ok_of_present {0} {5} ∅ (by decide)
  rw [h]
  congr 1

/-- C2: when `wait_for_futures` returns normally, every task that was in
the futures set at the moment of the call has reached a terminal state (the
`wait` postcondition covers exactly the snapshot) and has been removed from
the futures set; tasks submitted after the snapshot was taken are not in
the list handed to `wait`, hence not waited on by that call. -/
theorem wait_joins_snapshot (pre added removed final : Finset Nat)
    (st : Nat → TaskStatus)
    (hret : (wait_for_futures pre added removed).2 = .ok final)
    (hwait : ∀ f ∈ (wait_for_futures pre added removed).1,
      (st f).isTerminal = true) :
    (∀ t ∈ pre, (st t).isTerminal = true ∧ t ∉ final) ∧
    (∀ t, t ∉ pre → t ∉ (wait_for_futures pre added removed).1) := by
  constructor
  · intro t ht
    have hsnap : t ∈ (wait_for_futures pre added removed).1 := by
      simpa [wait_for_futures, Finset.mem_sort] using ht
    refine ⟨hwait t hsnap, ?_⟩
    have hloop : removeLoop (pre.sort (· ≤ ·)) ((pre ∪ added) \ removed) =
        .ok final := hret
    exact removeLoop_not_mem _ _ _ hloop t
      (by simpa [Finset.mem_sort] using ht)
  · intro t hnt hsnap
    exact hnt (by simpa [wait_for_futures, Finset.mem_sort] using hsnap)

/-- Witness for C2 at a concrete state: snapshot `{0}`, future `2` added
during the wait; after the call returns, `0` is terminal and removed, and
`2` was not waited on. -/
theorem wait_joins_snapshot_witness :
    (∀ t ∈ ({0} : Finset Nat),
      ((fun _ => TaskStatus.completed) t).isTerminal = true ∧
        t ∉ ({2} : Finset Nat)) ∧
    (∀ t, t ∉ ({0} : Finset Nat) → t ∉ (wait_for_futures {0} {2} ∅).1) := by
  refine wait_joins_snapshot {0} {2} ∅ {2} (fun _ => TaskStatus.completed)
    ?_ ?_
  · show (wait_for_futures {0} {2} ∅).2 = .ok {2}
    simp only [wait_for_futures, Finset.sort_singleton]
    rw [removeLoop_ok_of_subset [0] _ (by decide) (by decide)]
    congr 1
  · intro f _
    rfl

/-- C9: the worker pool bound is `max(max_workers or len(evaluators), 1)`:
it equals the provided `max_workers` whenever a positive one is specified,
and otherwise (when `max_workers` is `None`) equals the number of
configured evaluators with a minimum of 1. -/
theorem worker_bound_spec (cfg : Config) :
    (∀ mw : Int, cfg.max_workers = some mw → 0 < mw →
      cfg.workerBound = mw) ∧
    (cfg.max_workers = none →
      cfg.workerBound = max (cfg.evaluators.length : Int) 1) := by
  constructor
  · intro mw hmw hpos
    have hne : mw ≠ 0 := by omega
    simp [Config.workerBound, initWorkerBound, pyOrWorkers, hmw, hne]
    omega
  · intro hmw
    simp [Config.workerBound, initWorkerBound, pyOrWorkers, hmw]

/-- Witness for C9 at concrete configurations: an explicit `max_workers=3`
with one evaluator gives bound 3; no `max_workers` with two evaluators
gives bound 2. -/
theorem worker_bound_spec_witness :
    (⟨["A"], some 3, none, true, none⟩ : Config).workerBound = 3 ∧
    (⟨["A", "B"], none, none, true, none⟩ : Config).workerBound = 2 := by
  constructor
  · exact (worker_bound_spec _).1 3 rfl (by decide)
  · have h := (worker_bound_spec
      (⟨["A", "B"], none, none, true, none⟩ : Config)).2 rfl
    simpa using h

/-- C1 counterexample: the claim says both the guarded call and the
scoped-context call to `evaluate_run` execute also when a reporting-project
override is configured, so evaluate would run twice per task in that case;
but with `project_name = "proj"` and a succeeding evaluator the invocation
performs exactly one `evaluate_run` call, not two. -/
theorem eval_single_call_when_project_set :
    numEvaluateCalls (evaluate_in_project (some "proj")
      ⟨"r1", some [("o", "1")], none⟩ "MyEvaluator" (fun _ => .ok ())).1 = 1 ∧
    numEvaluateCalls (evaluate_in_project (some "proj")
      ⟨"r1", some [("o", "1")], none⟩ "MyEvaluator" (fun _ => .ok ())).1 ≠ 2 := by
  decide

/-- C1 amended: when no reporting-project override is configured, both the
guarded call and the scoped-context call execute, so `evaluate_run` runs
twice per task; when an override is configured, only the scoped-context
call executes, so it runs exactly once (counting invocations of a
non-raising evaluator). -/
theorem eval_call_count (pn : Option String) (run : Run) (en : String)
    (ev : Nat → Except String Unit) (h : ∀ k, ev k = .ok ()) :
    numEvaluateCalls (evaluate_in_project pn run en ev).1 =
      match pn with
      | none => 2
      | some _ => 1 := by
  cases pn <;> simp [evaluate_in_project, h, numEvaluateCalls, List.filter]

/-- Witness for C1 amended: with no override and a succeeding evaluator,
`evaluate_run` is invoked twice in one `_evaluate_in_project` call. -/
theorem eval_call_count_witness :
    numEvaluateCalls (evaluate_in_project none
      ⟨"r1", some [("o", "1")], none⟩ "MyEvaluator" (fun _ => .ok ())).1 = 2 := by
  have h := eval_call_count none ⟨"r1", some [("o", "1")], none⟩ "MyEvaluator"
    (fun _ => .ok ()) (fun _ => rfl)
  simpa using h

/-- C7: if an executed `evaluate_run` call raises, `_evaluate_in_project`
logs an error whose message carries the run id, the evaluator class name
and the diagnostic detail, and re-raises that same exception; if no
executed call raises, nothing is logged as an error and the invocation
returns normally. -/
theorem eval_error_logged_and_reraised (pn : Option String) (run : Run)
    (en : String) (ev : Nat → Except String Unit) :
    (∀ e, (evaluate_in_project pn run en ev).2 = .error e →
      TraceEv.logError (errMsg run en e) ∈ (evaluate_in_project pn run en ev).1 ∧
      ∃ k, ev k = .error e ∧
        TraceEv.call k ∈ (evaluate_in_project pn run en ev).1) ∧
    ((evaluate_in_project pn run en ev).2 = .ok () →
      ∀ m, TraceEv.logError m ∉ (evaluate_in_project pn run en ev).1) := by
  rcases pn with _ | p
  · rcases h0 : ev 0 with e0 | u0
    · constructor
      · intro e he
        simp [evaluate_in_project, h0] at he
        subst he
        refine ⟨by simp [evaluate_in_project, h0], 0, h0, ?_⟩
        simp [evaluate_in_project, h0]
      · intro hok
        simp [evaluate_in_project, h0] at hok
    · rcases h1 : ev 1 with e1 | u1
      · constructor
        · intro e he
          simp [evaluate_in_project, h0, h1] at he
          subst he
          refine ⟨by simp [evaluate_in_project, h0, h1], 1, h1, ?_⟩
          simp [evaluate_in_project, h0, h1]
        · intro hok
          simp [evaluate_in_project, h0, h1] at hok
      · constructor
        · intro e he
          simp [evaluate_in_project, h0, h1] at he
        · intro _ m
          simp [evaluate_in_project, h0, h1]
  · rcases h0 : ev 0 with e0 | u0
    · constructor
      · intro e he
        simp [evaluate_in_project, h0] at he
        subst he
        refine ⟨by simp [evaluate_in_project, h0], 0, h0, ?_⟩
        simp [evaluate_in_project, h0]
      · intro hok
        simp [evaluate_in_project, h0] at hok
    · constructor
      · intro e he
        simp [evaluate_in_project, h0] at he
      · intro _ m
        simp [evaluate_in_project, h0]

/-- Witness for C7: with an override set and an evaluator raising "boom",
the invocation logs the attributed error message and re-raises "boom". -/
theorem eval_error_logged_and_reraised_witness :
    TraceEv.logError (errMsg ⟨"r1", some [("o", "1")], none⟩ "MyEvaluator"
        "boom") ∈
      (evaluate_in_project (some "proj") ⟨"r1", some [("o", "1")], none⟩
        "MyEvaluator" (fun _ => .error "boom")).1 ∧
    ∃ k, (fun _ : Nat => (Except.error "boom" : Except String Unit)) k =
        .error "boom" ∧
      TraceEv.call k ∈
        (evaluate_in_project (some "proj") ⟨"r1", some [("o", "1")], none⟩
          "MyEvaluator" (fun _ => .error "boom")).1 :=
  (eval_error_logged_and_reraised (some "proj")
    ⟨"r1", some [("o", "1")], none⟩ "MyEvaluator"
    (fun _ => .error "boom")).1 "boom" rfl

/-- C5: for a run with no outputs (Python-falsy `run.outputs`) and
`skip_unfinished` set, `_persist_run` dispatches nothing and leaves the
registry, tasks, heap and statuses unchanged, emitting only the debug log
line before returning. -/
theorem persist_skips_unfinished (cfg : Config) (a : Nat) (s : HState)
    (run : Run) (hrun : s.heap[a]? = some run)
    (hskip : cfg.skip_unfinished = true)
    (hout : pyTruthy run.outputs = false) :
    (persist_run cfg a s).futures = s.futures ∧
    (persist_run cfg a s).tasks = s.tasks ∧
    (persist_run cfg a s).heap = s.heap ∧
    (persist_run cfg a s).status = s.status ∧
    (persist_run cfg a s).logs =
      s.logs ++ ["Skipping unfinished run " ++ run.id] := by
  rw [persist_run_skip cfg a s run hrun (by simp [hskip, hout])]
  simp

/-- Witness for C5: a run with `outputs = None` under `skip_unfinished` is
skipped, leaving a non-empty registry untouched. -/
theorem persist_skips_unfinished_witness :
    (persist_run ⟨["A", "B"], none, some "ex", true, none⟩ 0
        ⟨[⟨"r1", none, none⟩], {7}, [TaskStatus.completed],
          [⟨7, 0, "A"⟩], []⟩).futures = ({7} : Finset Nat) ∧
    (persist_run ⟨["A", "B"], none, some "ex", true, none⟩ 0
        ⟨[⟨"r1", none, none⟩], {7}, [TaskStatus.completed],
          [⟨7, 0, "A"⟩], []⟩).tasks = [⟨7, 0, "A"⟩] ∧
    (persist_run ⟨["A", "B"], none, some "ex", true, none⟩ 0
        ⟨[⟨"r1", none, none⟩], {7}, [TaskStatus.completed],
          [⟨7, 0, "A"⟩], []⟩).heap = [⟨"r1", none, none⟩] ∧
    (persist_run ⟨["A", "B"], none, some "ex", true, none⟩ 0
        ⟨[⟨"r1", none, none⟩], {7}, [TaskStatus.completed],
          [⟨7, 0, "A"⟩], []⟩).status = [TaskStatus.completed] ∧
    (persist_run ⟨["A", "B"], none, some "ex", true, none⟩ 0
        ⟨[⟨"r1", none, none⟩], {7}, [TaskStatus.completed],
          [⟨7, 0, "A"⟩], []⟩).logs =
      [] ++ ["Skipping unfinished run " ++ "r1"] :=
  persist_skips_unfinished ⟨["A", "B"], none, some "ex", true, none⟩ 0
    ⟨[⟨"r1", none, none⟩], {7}, [TaskStatus.completed], [⟨7, 0, "A"⟩], []⟩
    ⟨"r1", none, none⟩ rfl rfl rfl

/-- C4: for an eligible run (one that passes the submission gate),
`_persist_run` adds exactly one fresh future per configured evaluator to
the registry (N evaluators give N tasks), and it returns with every newly
enqueued task still `pending` — it does not wait for any of them to
complete. -/
theorem persist_dispatches_per_evaluator (cfg : Config) (a : Nat)
    (s : HState) (run : Run) (hrun : s.heap[a]? = some run)
    (helig : (cfg.skip_unfinished && !(pyTruthy run.outputs)) = false)
    (hfresh : ∀ f ∈ s.futures, f < s.status.length) :
    (persist_run cfg a s).futures.card =
      s.futures.card + cfg.evaluators.length ∧
    (persist_run cfg a s).tasks =
      s.tasks ++ newTasks cfg.evaluators s.heap.length s.status.length ∧
    ∀ t ∈ newTasks cfg.evaluators s.heap.length s.status.length,
      (persist_run cfg a s).status[t.future]? = some TaskStatus.pending := by
  rw [persist_run_eligible cfg a s run hrun helig]
  refine ⟨?_, ?_, ?_⟩
  · rw [submitEvaluators_card]
    exact hfresh
  · rw [submitEvaluators_tasks]
  · intro t ht
    rw [submitEvaluators_status]
    have hb := newTasks_future_bounds cfg.evaluators s.heap.length
      s.status.length t ht
    show (s.status ++
      List.replicate cfg.evaluators.length TaskStatus.pending)[t.future]? =
        some TaskStatus.pending
    rw [List.getElem?_append_right (by omega)]
    rw [List.getElem?_replicate]
    rw [if_pos (by omega)]

/-- Witness for C4: two evaluators and one finished run give exactly two
fresh pending tasks. -/
theorem persist_dispatches_per_evaluator_witness :
    (persist_run ⟨["A", "B"], none, some "ex", true, none⟩ 0
        ⟨[⟨"r1", some [("o", "1")], none⟩], ∅, [], [], []⟩).futures.card =
      (∅ : Finset Nat).card + (["A", "B"] : List String).length ∧
    (persist_run ⟨["A", "B"], none, some "ex", true, none⟩ 0
        ⟨[⟨"r1", some [("o", "1")], none⟩], ∅, [], [], []⟩).tasks =
      [] ++ newTasks ["A", "B"] 1 0 ∧
    ∀ t ∈ newTasks ["A", "B"] 1 0,
      (persist_run ⟨["A", "B"], none, some "ex", true, none⟩ 0
        ⟨[⟨"r1", some [("o", "1")], none⟩], ∅, [], [],
          []⟩).status[t.future]? = some TaskStatus.pending :=
  persist_dispatches_per_evaluator ⟨["A", "B"], none, some "ex", true, none⟩
    0 ⟨[⟨"r1", some [("o", "1")], none⟩], ∅, [], [], []⟩
    ⟨"r1", some [("o", "1")], none⟩ rfl rfl (by simp)

/-- C6: `_persist_run` never mutates any existing run object on the heap —
in particular the original run keeps its `reference_example_id` — and when
it dispatches, the freshly allocated copy is the original record with only
`reference_example_id` set to the configured `example_id`. -/
theorem persist_no_mutation_of_original (cfg : Config) (a : Nat)
    (s : HState) (run : Run) (hrun : s.heap[a]? = some run) :
    (∀ b, b < s.heap.length →
      (persist_run cfg a s).heap[b]? = s.heap[b]?) ∧
    ((cfg.skip_unfinished && !(pyTruthy run.outputs)) = false →
      (persist_run cfg a s).heap[s.heap.length]? =
        some { run with reference_example_id := cfg.example_id }) := by
  cases hgate : (cfg.skip_unfinished && !(pyTruthy run.outputs)) with
  | true =>
    rw [persist_run_skip cfg a s run hrun hgate]
    constructor
    · intro b _
      rfl
    · intro hfalse
      simp [hgate] at hfalse
  | false =>
    rw [persist_run_eligible cfg a s run hrun hgate]
    rw [submitEvaluators_heap]
    constructor
    · intro b hb
      show (s.heap ++
        [{ run with reference_example_id := cfg.example_id }])[b]? =
          s.heap[b]?
      rw [List.getElem?_append, if_pos hb]
    · intro _
      exact List.getElem?_concat_length _ _

/-- Witness for C6: dispatching a finished run leaves the original record
(with `reference_example_id = None`) unchanged at its address and places
the mutated copy at the fresh address. -/
theorem persist_no_mutation_of_original_witness :
    (∀ b, b < (([⟨"r1", some [("o", "1")], none⟩] : List Run)).length →
      (persist_run ⟨["A", "B"], none, some "ex", true, none⟩ 0
        ⟨[⟨"r1", some [("o", "1")], none⟩], ∅, [], [], []⟩).heap[b]? =
      ([⟨"r1", some [("o", "1")], none⟩] : List Run)[b]?) ∧
    (((true : Bool) && !(pyTruthy (some [("o", "1")]))) = false →
      (persist_run ⟨["A", "B"], none, some "ex", true, none⟩ 0
        ⟨[⟨"r1", some [("o", "1")], none⟩], ∅, [], [],
          []⟩).heap[(([⟨"r1", some [("o", "1")], none⟩] : List Run)).length]? =
        some ⟨"r1", some [("o", "1")], some "ex"⟩) :=
  persist_no_mutation_of_original ⟨["A", "B"], none, some "ex", true, none⟩
    0 ⟨[⟨"r1", some [("o", "1")], none⟩], ∅, [], [], []⟩
    ⟨"r1", some [("o", "1")], none⟩ rfl

/-- C10: an eligible dispatch allocates exactly one shallow copy of the
run, and all N submitted tasks hold the address of that single copy, so
the evaluator tasks share one run object rather than independent copies. -/
theorem persist_shares_single_copy (cfg : Config) (a : Nat) (s : HState)
    (run : Run) (hrun : s.heap[a]? = some run)
    (helig : (cfg.skip_unfinished && !(pyTruthy run.outputs)) = false) :
    (persist_run cfg a s).heap.length = s.heap.length + 1 ∧
    (persist_run cfg a s).tasks =
      s.tasks ++ newTasks cfg.evaluators s.heap.length s.status.length ∧
    ∀ t ∈ newTasks cfg.evaluators s.heap.length s.status.length,
      t.runAddr = s.heap.length := by
  rw [persist_run_eligible cfg a s run hrun helig]
  refine ⟨?_, ?_, newTasks_runAddr _ _ _⟩
  · rw [submitEvaluators_heap]
    simp
  · rw [submitEvaluators_tasks]

/-- Witness for C10: with two evaluators, one dispatch of a finished run
grows the heap by exactly one cell and both tasks point at that cell. -/
theorem persist_shares_single_copy_witness :
    (persist_run ⟨["A", "B"], none, some "ex", true, none⟩ 0
        ⟨[⟨"r1", some [("o", "1")], none⟩], ∅, [], [], []⟩).heap.length =
      (([⟨"r1", some [("o", "1")], none⟩] : List Run)).length + 1 ∧
    (persist_run ⟨["A", "B"], none, some "ex", true, none⟩ 0
        ⟨[⟨"r1", some [("o", "1")], none⟩], ∅, [], [], []⟩).tasks =
      [] ++ newTasks ["A", "B"] 1 0 ∧
    ∀ t ∈ newTasks ["A", "B"] 1 0, t.runAddr = 1 :=
  persist_shares_single_copy ⟨["A", "B"], none, some "ex", true, none⟩ 0
    ⟨[⟨"r1", some [("o", "1")], none⟩], ∅, [], [], []⟩
    ⟨"r1", some [("o", "1")], none⟩ rfl rfl
